import Mathlib

/-!
Shallow embedding of the devNav core (`src/core/parser.ts` and the parts of
`src/utils/helpers.ts` / `src/utils/constants.ts` it uses), together with
theorems settling the specification claims about it.

JavaScript strings are modelled as Lean `String`s (lists of characters);
JavaScript regular-expression operations used by the source
(`replace(/\s+/g, ' ')`, `replace(/^@/, '')`, `replace(/\/+$/, '')`,
`replace(/^\/+/, '')`, `test` of anchored character-class patterns) are
translated into explicit character-list recursions below.
-/

namespace DevNav

/-- Character class of the JavaScript `\s` regex class and of the characters
removed by `String.prototype.trim` (ASCII whitespace plus the Unicode
whitespace and BOM code points). -/
def isJsWs (c : Char) : Bool :=
  c == ' ' || c == '\t' || c == '\n' || c == '\r' ||
  c == '\x0b' || c == '\x0c' || c == '\u00A0' || c == '\u1680' ||
  ('\u2000' ≤ c && c ≤ '\u200A') || c == '\u2028' || c == '\u2029' ||
  c == '\u202F' || c == '\u205F' || c == '\u3000' || c == '\uFEFF'

/-- Model of `String.prototype.trim`: drop leading and trailing whitespace. -/
def trimChars (l : List Char) : List Char :=
  ((l.dropWhile isJsWs).reverse.dropWhile isJsWs).reverse

/-- Model of `input.trim()` on strings. -/
def jsTrim (s : String) : String := ⟨trimChars s.data⟩

/-- Model of `replace(/\s+/g, ' ')`: every maximal run of whitespace becomes a
single space. Within a run all characters but the last are dropped and the
last becomes `' '`. -/
def collapseWs : List Char → List Char
  | [] => []
  | [c] => if isJsWs c then [' '] else [c]
  | c :: d :: r =>
    if isJsWs c then
      if isJsWs d then collapseWs (d :: r)
      else ' ' :: collapseWs (d :: r)
    else c :: collapseWs (d :: r)

/-- Model of `replace(/^@/, '')`: remove one leading `'@'` if present. -/
def stripAtSign : List Char → List Char
  | '@' :: r => r
  | l => l

/-- `URLParser.normalizeInput`: trim, collapse whitespace runs to single
spaces, remove the legacy `'@'` prefix. -/
def normalizeInput (s : String) : String :=
  ⟨stripAtSign (collapseWs (trimChars s.data))⟩

/-- Model of `String.prototype.split(' ')` at the character level: split on
every single space character, keeping empty pieces. -/
def splitSpChars : List Char → List (List Char)
  | [] => [[]]
  | c :: r =>
    if c == ' ' then [] :: splitSpChars r
    else
      match splitSpChars r with
      | [] => [[c]]
      | g :: gs => (c :: g) :: gs

/-- Model of `s.split(' ')` on strings. -/
def jsSplitSpace (s : String) : List String :=
  (splitSpChars s.data).map (fun g => ⟨g⟩)

/-- The non-empty segments of a (normalized) string, as computed by
`normalizedInput.split(' ').filter(segment => segment.length > 0)`. -/
def segsOfString (s : String) : List String :=
  (jsSplitSpace s).filter (fun seg => seg.length > 0)

/-- The segment list `parse` computes for a raw input: the input is trimmed,
normalized, split on spaces, and empty pieces are discarded. -/
def segmentsOf (input : String) : List String :=
  segsOfString (normalizeInput (jsTrim input))

/-- `Token` from `src/types/index.ts`: a configured shortcut value. Only the
`value` field exists in the source interface. -/
structure Token where
  value : String
  deriving DecidableEq

/-- `DevNavigatorConfig` restricted to the `tokens` record, the only field the
parser core reads (`settings` and `version` are never consulted by `parse`,
`construct` or `isValidFormat`). The JavaScript `Record<string, Token>` is
modelled as an association list with unique keys; `Record` lookup is
first-match lookup. -/
structure DevNavigatorConfig where
  tokens : List (String × Token)
  deriving DecidableEq

/-- Model of `config.tokens[segment]`. -/
def lookupToken (config : DevNavigatorConfig) (key : String) : Option Token :=
  config.tokens.lookup key

/-- The anonymous token record produced by `parse` (`{key, value, isResolved}`;
the spec calls it `ResolvedToken`). -/
structure ResolvedToken where
  key : String
  value : String
  isResolved : Bool
  deriving DecidableEq

/-- `ValidationError` from `src/types/index.ts`. -/
structure ValidationError where
  field : String
  message : String
  code : String
  deriving DecidableEq

/-- `ParsedInput` from `src/types/index.ts`. -/
structure ParsedInput where
  tokens : List ResolvedToken
  isValid : Bool
  errors : List ValidationError
  originalInput : String
  deriving DecidableEq

/-- `ConstructedUrl` from `src/types/index.ts`. -/
structure ConstructedUrl where
  url : String
  description : String
  isValid : Bool
  content : String
  deriving DecidableEq

namespace VALIDATION_ERRORS

/-- `VALIDATION_ERRORS.MISSING_BASE` from `src/utils/constants.ts`. -/
def MISSING_BASE : String := "MISSING_BASE"

/-- `VALIDATION_ERRORS.INVALID_FORMAT` from `src/utils/constants.ts`. -/
def INVALID_FORMAT : String := "INVALID_FORMAT"

/-- `VALIDATION_ERRORS.EMPTY_INPUT` from `src/utils/constants.ts`. -/
def EMPTY_INPUT : String := "EMPTY_INPUT"

end VALIDATION_ERRORS

/-- `createValidationError` from `src/utils/helpers.ts`. -/
def createValidationError (field message code : String) : ValidationError :=
  { field := field, message := message, code := code }

/-- Model of `String.prototype.startsWith`. -/
def strStartsWith (s pre : String) : Bool :=
  pre.data.isPrefixOf s.data

/-- The URL-prefix test `value.startsWith('http://') || value.startsWith('https://')`
used by both `parse` and `construct`. -/
def isBaseValue (v : String) : Bool :=
  strStartsWith v "http://" || strStartsWith v "https://"

/-- The base-URL test used in `parse`'s validation: the token must be resolved
and its value must carry an http(s) prefix. -/
def parseBaseCheck (t : ResolvedToken) : Bool :=
  t.isResolved && isBaseValue t.value

/-- The base-token predicate used by `construct`'s `find`: only the value
prefix is tested, `isResolved` is ignored. -/
def constructBasePred (t : ResolvedToken) : Bool :=
  isBaseValue t.value

/-- The per-segment resolution step of `parse`: a segment found in the config
becomes a resolved token carrying the configured value, an absent segment
passes through as an unresolved dynamic token. -/
def resolveSegment (config : DevNavigatorConfig) (segment : String) : ResolvedToken :=
  match lookupToken config segment with
  | some configToken => { key := segment, value := configToken.value, isResolved := true }
  | none => { key := segment, value := segment, isResolved := false }

/-- `segments.map(...)` in `parse`. -/
def parseTokens (config : DevNavigatorConfig) (segments : List String) : List ResolvedToken :=
  segments.map (resolveSegment config)

/-- The base-URL validation block of `parse` (lines 101–127 of
`src/core/parser.ts`): with a non-empty token list, an empty error list if
some token passes `parseBaseCheck` and a single `MISSING_BASE` error
otherwise; with an empty token list, a single `EMPTY_INPUT` error. -/
def baseErrors (tokens : List ResolvedToken) : List ValidationError :=
  if tokens.length > 0 then
    if tokens.any parseBaseCheck then []
    else [createValidationError "tokens" "No base URL found in tokens." VALIDATION_ERRORS.MISSING_BASE]
  else
    [createValidationError "tokens" "No tokens found in input." VALIDATION_ERRORS.EMPTY_INPUT]

/-- `URLParser.parse` from `src/core/parser.ts`. -/
def parse (input : String) (config : DevNavigatorConfig) : ParsedInput :=
  let originalInput := jsTrim input
  if originalInput = "" then
    { tokens := [], isValid := false,
      errors := [createValidationError "input" "Input cannot be empty" VALIDATION_ERRORS.EMPTY_INPUT],
      originalInput := originalInput }
  else
    let normalizedInput := normalizeInput originalInput
    let segments := (jsSplitSpace normalizedInput).filter (fun seg => seg.length > 0)
    if segments = [] then
      { tokens := [], isValid := false,
        errors := [createValidationError "input" "Invalid input format" VALIDATION_ERRORS.INVALID_FORMAT],
        originalInput := originalInput }
    else
      let tokens := parseTokens config segments
      let errors := baseErrors tokens
      { tokens := tokens, isValid := errors.length == 0,
        errors := errors, originalInput := originalInput }

/-- Model of `replace(/\/+$/, '')`: strip the trailing run of slashes. -/
def stripTrailingSlashes (s : String) : String :=
  ⟨(s.data.reverse.dropWhile (fun c => c == '/')).reverse⟩

/-- Model of `replace(/^\/+/, '')`: strip the leading run of slashes. -/
def stripLeadingSlashes (s : String) : String :=
  ⟨s.data.dropWhile (fun c => c == '/')⟩

/-- Model of `Array.prototype.join(sep)`. -/
def joinWith (sep : String) : List String → String
  | [] => ""
  | [x] => x
  | x :: y :: r => x ++ sep ++ joinWith sep (y :: r)

/-- `URLParser.buildFinalUrl` from `src/core/parser.ts`. -/
def buildFinalUrl : List String → String
  | [] => ""
  | baseUrl :: restParts =>
    if restParts.isEmpty then baseUrl
    else
      let cleanBase := stripTrailingSlashes baseUrl
      let pathPart := joinWith "/" (restParts.map stripLeadingSlashes)
      if pathPart = "" then cleanBase else cleanBase ++ "/" ++ pathPart

/-- The path-parts accumulation of `construct` (the `forEach` pushing every
`token !== baseToken`). JavaScript compares object references there; tokens
are freshly allocated per array element by `parse`, so reference identity
coincides with position and exactly the first token satisfying
`constructBasePred` (the one returned by `find`) is skipped. -/
def pathTokenValues : List ResolvedToken → List String
  | [] => []
  | t :: rest =>
    if constructBasePred t then rest.map (fun u => u.value)
    else t.value :: pathTokenValues rest

/-- Line terminators, which the JavaScript regex `.` (without the `s` flag)
does not match. -/
def isLineTerm (c : Char) : Bool :=
  c == '\n' || c == '\r' || c == '\u2028' || c == '\u2029'

/-- Case-insensitive match of the regex prefix `https?:\/\/`; returns the
remainder of the character list on success. -/
def httpSchemeRest : List Char → Option (List Char)
  | h :: t1 :: t2 :: p :: rest =>
    if h.toLower == 'h' && t1.toLower == 't' && t2.toLower == 't' && p.toLower == 'p' then
      match rest with
      | s :: r2 =>
        if s.toLower == 's' then
          match r2 with
          | ':' :: '/' :: '/' :: tail => some tail
          | _ => none
        else
          match rest with
          | ':' :: '/' :: '/' :: tail => some tail
          | _ => none
      | [] => none
    else none
  | _ => none

/-- `URL_PATTERNS.VALID_URL.test(url)` from `src/utils/constants.ts`: the
anchored case-insensitive regex `^https?:\/\/[^\s$.?#].[^\s]*$` — an http(s)
scheme, one character that is neither whitespace nor `$`, `.`, `?`, `#`, one
character that is not a line terminator, then any run of non-whitespace
characters. -/
def validUrlTest (s : String) : Bool :=
  match httpSchemeRest s.data with
  | none => false
  | some rest =>
    match rest with
    | c1 :: c2 :: tail =>
      !isJsWs c1 && !(c1 == '$' || c1 == '.' || c1 == '?' || c1 == '#') &&
      !isLineTerm c2 && tail.all (fun c => !isJsWs c)
    | _ => false

/-- Forbidden host code points of the WHATWG URL standard. -/
def forbiddenHostChar (c : Char) : Bool :=
  c == '\x00' || c == '\t' || c == '\n' || c == '\r' || c == ' ' || c == '#' ||
  c == '/' || c == ':' || c == '<' || c == '>' || c == '?' || c == '@' ||
  c == '[' || c == '\\' || c == ']' || c == '^' || c == '|'

/-- The port section of an authority: either absent, or `':'` followed by
digits denoting a number at most 65535 (an empty port is allowed). -/
def portOk : List Char → Bool
  | [] => true
  | ':' :: ds =>
    ds.all Char.isDigit &&
      (ds.foldl (fun n c => n * 10 + (c.toNat - 48)) 0 ≤ 65535)
  | _ => false

/-- Models success of the WHATWG `new URL(url)` constructor invoked by
`isValidUrl` in `src/utils/helpers.ts`, restricted to http(s)-schemed inputs
(the only inputs on which `isValidUrl` can return true, since its regex
requires an http(s) scheme): after the scheme and any further slashes, the
authority must contain a nonempty host free of forbidden host code points
and an optional numeric port; a bracketed IPv6 host needs a closing bracket. -/
def urlParseOk (s : String) : Bool :=
  match httpSchemeRest s.data with
  | none => false
  | some rest =>
    let afterSlashes := rest.dropWhile (fun c => c == '/' || c == '\\')
    let authority := afterSlashes.takeWhile
      (fun c => !(c == '/' || c == '?' || c == '#' || c == '\\'))
    let hostPort :=
      if authority.contains '@' then
        (authority.reverse.takeWhile (fun c => !(c == '@'))).reverse
      else authority
    match hostPort with
    | [] => false
    | '[' :: r =>
      let inside := r.takeWhile (fun c => !(c == ']'))
      let after := r.dropWhile (fun c => !(c == ']'))
      match after with
      | ']' :: portPart =>
        !inside.isEmpty && inside.all (fun c => c.isDigit || ('a' ≤ c.toLower && c.toLower ≤ 'f') || c == ':' || c == '.') &&
          portOk portPart
      | _ => false
    | _ =>
      let host := hostPort.takeWhile (fun c => !(c == ':'))
      let portPart := hostPort.dropWhile (fun c => !(c == ':'))
      !host.isEmpty && host.all (fun c => !forbiddenHostChar c) && portOk portPart

/-- `isValidUrl` from `src/utils/helpers.ts`: `new URL(url)` must succeed and
the `VALID_URL` regex must match. -/
def isValidUrl (url : String) : Bool :=
  urlParseOk url && validUrlTest url

/-- `URLParser.construct` from `src/core/parser.ts`. -/
def construct (parsed : ParsedInput) (_config : DevNavigatorConfig) : ConstructedUrl :=
  if !parsed.isValid || parsed.tokens.isEmpty then
    let joined := joinWith "; " (parsed.errors.map (fun e => e.message))
    { url := "",
      description := if joined = "" then "Invalid input" else joined,
      isValid := false,
      content := parsed.originalInput }
  else
    match parsed.tokens.find? constructBasePred with
    | none =>
      { url := "", description := "No base URL token found.",
        isValid := false, content := parsed.originalInput }
    | some baseToken =>
      let urlParts := baseToken.value :: pathTokenValues parsed.tokens
      let finalUrl := buildFinalUrl urlParts
      if !isValidUrl finalUrl then
        { url := finalUrl, description := "Invalid URL constructed",
          isValid := false, content := parsed.originalInput }
      else
        { url := finalUrl,
          description := "Navigate to: " ++ joinWith " → " (parsed.tokens.map (fun t => t.key)),
          isValid := true,
          content := finalUrl }

/-- A character allowed by the token-key regex `^[a-zA-Z0-9-]+$`. -/
def isTokenKeyChar (c : Char) : Bool :=
  ('a' ≤ c && c ≤ 'z') || ('A' ≤ c && c ≤ 'Z') || ('0' ≤ c && c ≤ '9') || c == '-'

/-- `/^[a-zA-Z0-9-]+$/.test(segment)`: at least one character, all from the
token-key class. -/
def tokenKeyTest (s : String) : Bool :=
  !s.data.isEmpty && s.data.all isTokenKeyChar

/-- `URLParser.isValidFormat` from `src/core/parser.ts`. -/
def isValidFormat (input : String) : Bool :=
  let normalized := normalizeInput input
  if normalized = "" then false
  else
    let segments := (jsSplitSpace normalized).filter (fun seg => seg.length > 0)
    if segments = [] then false
    else segments.all (fun segment => segment.length > 0 && tokenKeyTest segment)

/-- A configuration with no tokens. -/
def emptyConfig : DevNavigatorConfig := { tokens := [] }

/-- The mapping of the spec's examples:
`{dev: "https://app.dev.com", api: "api/v1"}`. -/
def demoConfig : DevNavigatorConfig :=
  { tokens := [("dev", { value := "https://app.dev.com" }), ("api", { value := "api/v1" })] }

/-- The slash-joining step described by the amended claim, written as a fold:
the first remaining part followed by `'/'`-prefixed later parts. -/
def joinSlashFold (l : List String) : String :=
  match l with
  | [] => ""
  | x :: xs => x ++ xs.foldr (fun a acc => "/" ++ a ++ acc) ""

/-- The joining rule of the amended claim: with no subsequent parts the first
part is returned unchanged; otherwise the first part loses its trailing
slashes, every subsequent part loses only its leading slashes, and the parts
are joined with single `'/'` separators, the cleaned first part standing alone
when the joined rest is empty. -/
def specJoinLeadingOnly (parts : List String) : String :=
  match parts with
  | [] => ""
  | [base] => base
  | base :: rest =>
    let joinedRest := joinSlashFold (rest.map stripLeadingSlashes)
    if joinedRest = "" then stripTrailingSlashes base
    else stripTrailingSlashes base ++ "/" ++ joinedRest

/-- The mapping `{dev: "https://app.dev.com", api: "api/v1/"}` whose `api`
value ends in a slash. -/
def slashConfig : DevNavigatorConfig :=
  { tokens := [("dev", { value := "https://app.dev.com" }), ("api", { value := "api/v1/" })] }

/-- The mapping `{dev: "https://x/"}` whose base value ends in a slash. -/
def rootConfig : DevNavigatorConfig :=
  { tokens := [("dev", { value := "https://x/" })] }

/-! Unfolding lemmas for `parse`. -/

/-- When the trimmed input is empty, `parse` takes the early `EMPTY_INPUT`
return. -/
theorem parse_of_trim_empty (input : String) (config : DevNavigatorConfig)
    (h : jsTrim input = "") :
    parse input config =
      { tokens := [], isValid := false,
        errors := [createValidationError "input" "Input cannot be empty" VALIDATION_ERRORS.EMPTY_INPUT],
        originalInput := "" } := by
  simp [parse, h]

/-- A trimmed-empty input has no segments. -/
theorem segmentsOf_of_trim_empty (input : String) (h : jsTrim input = "") :
    segmentsOf input = [] := by
  unfold segmentsOf
  rw [h]
  decide

/-- When the trimmed input is nonempty but no segments survive splitting,
`parse` takes the `INVALID_FORMAT` return. -/
theorem parse_of_segments_nil (input : String) (config : DevNavigatorConfig)
    (h1 : jsTrim input ≠ "") (h2 : segmentsOf input = []) :
    parse input config =
      { tokens := [], isValid := false,
        errors := [createValidationError "input" "Invalid input format" VALIDATION_ERRORS.INVALID_FORMAT],
        originalInput := jsTrim input } := by
  have h2' : (jsSplitSpace (normalizeInput (jsTrim input))).filter (fun seg => seg.length > 0) = [] := h2
  simp [parse, h1, h2']

/-- When segments survive, `parse` resolves them and runs the base-URL
validation. -/
theorem parse_main (input : String) (config : DevNavigatorConfig)
    (h : segmentsOf input ≠ []) :
    parse input config =
      { tokens := parseTokens config (segmentsOf input),
        isValid := (baseErrors (parseTokens config (segmentsOf input))).length == 0,
        errors := baseErrors (parseTokens config (segmentsOf input)),
        originalInput := jsTrim input } := by
  have h1 : jsTrim input ≠ "" := by
    intro he
    exact h (segmentsOf_of_trim_empty input he)
  have h2 : ¬((jsSplitSpace (normalizeInput (jsTrim input))).filter (fun seg => seg.length > 0) = []) := h
  simp only [parse]
  rw [if_neg h1, if_neg h2]
  rfl

/-- Both branches of the resolution step keep the segment as the token key. -/
theorem resolveSegment_key (config : DevNavigatorConfig) (s : String) :
    (resolveSegment config s).key = s := by
  unfold resolveSegment
  cases lookupToken config s <;> rfl

/-- When no segments survive, `parse` returns no tokens. -/
theorem parse_tokens_nil (input : String) (config : DevNavigatorConfig)
    (h2 : segmentsOf input = []) : (parse input config).tokens = [] := by
  by_cases h1 : jsTrim input = ""
  · rw [parse_of_trim_empty input config h1]
  · rw [parse_of_segments_nil input config h1 h2]

/-- C1: for every input whose normalization yields a non-empty segment list,
`parse` emits a `MISSING_BASE` error exactly when no token is resolved with a
value carrying an http(s) prefix, and the result is valid exactly when the
error list is empty. -/
theorem C1_missing_base_policy (input : String) (config : DevNavigatorConfig)
    (h : segmentsOf input ≠ []) :
    ((∃ e ∈ (parse input config).errors, e.code = VALIDATION_ERRORS.MISSING_BASE) ↔
      ¬ ∃ t ∈ (parse input config).tokens,
          t.isResolved = true ∧
            (strStartsWith t.value "http://" = true ∨ strStartsWith t.value "https://" = true)) ∧
    ((parse input config).isValid = true ↔ (parse input config).errors = []) := by
  rw [parse_main input config h]
  dsimp only
  have hlen : (parseTokens config (segmentsOf input)).length > 0 := by
    unfold parseTokens
    rw [List.length_map]
    exact List.length_pos.mpr h
  have key : (parseTokens config (segmentsOf input)).any parseBaseCheck = true ↔
      ∃ t ∈ parseTokens config (segmentsOf input),
        t.isResolved = true ∧
          (strStartsWith t.value "http://" = true ∨ strStartsWith t.value "https://" = true) := by
    simp [List.any_eq_true, parseBaseCheck, isBaseValue]
  unfold baseErrors
  rw [if_pos hlen]
  by_cases hany : (parseTokens config (segmentsOf input)).any parseBaseCheck = true
  · rw [if_pos hany]
    refine ⟨iff_of_false (by simp) (not_not_intro (key.mp hany)), by simp⟩
  · rw [if_neg hany]
    refine ⟨iff_of_true ⟨_, List.mem_singleton.mpr rfl, rfl⟩ ?_, by simp⟩
    intro hex
    exact hany (key.mpr hex)

/-- C1 witness: `parse("unknown", m)` with an empty mapping. -/
theorem C1_missing_base_policy_witness :
    segmentsOf "unknown" ≠ [] ∧
    (((∃ e ∈ (parse "unknown" emptyConfig).errors, e.code = VALIDATION_ERRORS.MISSING_BASE) ↔
        ¬ ∃ t ∈ (parse "unknown" emptyConfig).tokens,
            t.isResolved = true ∧
              (strStartsWith t.value "http://" = true ∨ strStartsWith t.value "https://" = true)) ∧
      ((parse "unknown" emptyConfig).isValid = true ↔ (parse "unknown" emptyConfig).errors = [])) :=
  ⟨by decide, C1_missing_base_policy "unknown" emptyConfig (by decide)⟩

/-- C3 counterexample: the input `"@"` normalizes to the empty string, yet
`parse` reports `INVALID_FORMAT`, not `EMPTY_INPUT` as the claim demands. -/
theorem C3_counterexample :
    normalizeInput (jsTrim "@") = "" ∧
    (parse "@" emptyConfig).errors.map (fun e => e.code) = [VALIDATION_ERRORS.INVALID_FORMAT] ∧
    (parse "@" emptyConfig).errors.map (fun e => e.code) ≠ [VALIDATION_ERRORS.EMPTY_INPUT] := by
  decide

/-- C3 amended: an input whose trimmed form is empty yields an empty token
list, `isValid` false and exactly one `EMPTY_INPUT` error; an input whose
trimmed form is nonempty but whose normalization leaves no segments (the `"@"`
case) yields exactly one `INVALID_FORMAT` error instead. -/
theorem C3_empty_input_behavior (input : String) (config : DevNavigatorConfig) :
    (jsTrim input = "" →
      parse input config =
        { tokens := [], isValid := false,
          errors := [createValidationError "input" "Input cannot be empty" VALIDATION_ERRORS.EMPTY_INPUT],
          originalInput := "" }) ∧
    (jsTrim input ≠ "" → segmentsOf input = [] →
      parse input config =
        { tokens := [], isValid := false,
          errors := [createValidationError "input" "Invalid input format" VALIDATION_ERRORS.INVALID_FORMAT],
          originalInput := jsTrim input }) :=
  ⟨parse_of_trim_empty input config, parse_of_segments_nil input config⟩

/-- C3 witness: the spec's examples `parse("", m)` and `parse("   ", m)`, plus
the `"@"` branch. -/
theorem C3_empty_input_behavior_witness :
    parse "" emptyConfig =
      { tokens := [], isValid := false,
        errors := [createValidationError "input" "Input cannot be empty" VALIDATION_ERRORS.EMPTY_INPUT],
        originalInput := "" } ∧
    parse "   " emptyConfig =
      { tokens := [], isValid := false,
        errors := [createValidationError "input" "Input cannot be empty" VALIDATION_ERRORS.EMPTY_INPUT],
        originalInput := "" } ∧
    parse "@" emptyConfig =
      { tokens := [], isValid := false,
        errors := [createValidationError "input" "Invalid input format" VALIDATION_ERRORS.INVALID_FORMAT],
        originalInput := "@" } :=
  ⟨(C3_empty_input_behavior "" emptyConfig).1 (by decide),
   (C3_empty_input_behavior "   " emptyConfig).1 (by decide),
   (C3_empty_input_behavior "@" emptyConfig).2 (by decide) (by decide)⟩

/-- C5: the token keys of a parse result are exactly the normalized,
space-split, non-empty segments of the input, in order. -/
theorem C5_order_preservation (input : String) (config : DevNavigatorConfig) :
    (parse input config).tokens.map (fun t => t.key) = segmentsOf input := by
  by_cases h2 : segmentsOf input = []
  · rw [parse_tokens_nil input config h2, h2]
    rfl
  · rw [parse_main input config h2]
    dsimp only
    unfold parseTokens
    rw [List.map_map]
    have hcomp : ((fun t => ResolvedToken.key t) ∘ resolveSegment config) = id := by
      funext s
      exact resolveSegment_key config s
    rw [hcomp, List.map_id]

/-- C4: a token is resolved with the configured value when its key is in the
mapping, and passes through unresolved with itself as value when it is not. -/
theorem C4_resolution_correctness (input : String) (config : DevNavigatorConfig) :
    ∀ t ∈ (parse input config).tokens,
      (∀ ct, lookupToken config t.key = some ct → t.isResolved = true ∧ t.value = ct.value) ∧
      (lookupToken config t.key = none → t.isResolved = false ∧ t.value = t.key) := by
  intro t ht
  by_cases h2 : segmentsOf input = []
  · rw [parse_tokens_nil input config h2] at ht
    exact absurd ht (List.not_mem_nil t)
  · rw [parse_main input config h2] at ht
    dsimp only at ht
    unfold parseTokens at ht
    rcases List.mem_map.mp ht with ⟨s, _, rfl⟩
    rw [resolveSegment_key config s]
    constructor
    · intro ct hct
      simp [resolveSegment, hct]
    · intro hct
      simp [resolveSegment, hct]

/-- C4 witness: in the demo mapping, `dev` resolves to its configured value
and `session123` passes through unresolved. -/
theorem C4_resolution_correctness_witness :
    (⟨"dev", "https://app.dev.com", true⟩ : ResolvedToken) ∈ (parse "dev session123" demoConfig).tokens ∧
    (⟨"session123", "session123", false⟩ : ResolvedToken) ∈ (parse "dev session123" demoConfig).tokens ∧
    (∀ ct, lookupToken demoConfig "dev" = some ct →
      (true = true ∧ "https://app.dev.com" = ct.value)) ∧
    (lookupToken demoConfig "session123" = none → (false = false ∧ "session123" = "session123")) :=
  ⟨by decide, by decide,
   (C4_resolution_correctness "dev session123" demoConfig ⟨"dev", "https://app.dev.com", true⟩ (by decide)).1,
   (C4_resolution_correctness "dev session123" demoConfig ⟨"session123", "session123", false⟩ (by decide)).2⟩

/-- Concatenation of strings is empty exactly when both are. -/
theorem strAppend_eq_empty_iff (a b : String) : a ++ b = "" ↔ a = "" ∧ b = "" := by
  constructor
  · intro h
    have h2 : a.data ++ b.data = [] := by
      have := congrArg String.data h
      rwa [String.data_append] at this
    rcases List.append_eq_nil.mp h2 with ⟨ha, hb⟩
    exact ⟨String.ext ha, String.ext hb⟩
  · rintro ⟨rfl, rfl⟩
    rfl

/-- Joining a list whose first element is nonempty yields a nonempty string. -/
theorem joinWith_ne_empty (sep x : String) (xs : List String) (hx : x ≠ "") :
    joinWith sep (x :: xs) ≠ "" := by
  cases xs with
  | nil => exact hx
  | cons y r =>
    show x ++ sep ++ joinWith sep (y :: r) ≠ ""
    intro hc
    rcases (strAppend_eq_empty_iff _ _).mp hc with ⟨h1, _⟩
    rcases (strAppend_eq_empty_iff _ _).mp h1 with ⟨h2, _⟩
    exact hx h2

/-- C6: on an invalid or token-less parse result, `construct` reports an
invalid result echoing the original input, with the error messages joined by
`"; "` (or a generic fallback when no error was accumulated). The hypothesis
that accumulated messages are nonempty holds of every error `parse` creates. -/
theorem C6_invalid_input_branch (p : ParsedInput) (config : DevNavigatorConfig)
    (h : p.isValid = false ∨ p.tokens = [])
    (hmsg : ∀ e ∈ p.errors, e.message ≠ "") :
    (construct p config).isValid = false ∧
    (construct p config).url = "" ∧
    (construct p config).content = p.originalInput ∧
    (construct p config).description =
      (if p.errors = [] then "Invalid input"
       else joinWith "; " (p.errors.map (fun e => e.message))) := by
  have hcond : (!p.isValid || p.tokens.isEmpty) = true := by
    rcases h with h | h
    · rw [h]
      rfl
    · rw [h]
      simp
  unfold construct
  rw [if_pos hcond]
  refine ⟨rfl, rfl, rfl, ?_⟩
  by_cases he : p.errors = []
  · rw [if_pos he, he]
    rfl
  · rw [if_neg he]
    obtain ⟨e, rest, herr⟩ := List.exists_cons_of_ne_nil he
    have hne : joinWith "; " (p.errors.map (fun f => f.message)) ≠ "" := by
      rw [herr, List.map_cons]
      exact joinWith_ne_empty _ _ _ (hmsg e (herr ▸ List.mem_cons_self e rest))
    show (if joinWith "; " (p.errors.map (fun f => f.message)) = "" then "Invalid input"
          else joinWith "; " (p.errors.map (fun f => f.message))) =
        joinWith "; " (p.errors.map (fun f => f.message))
    rw [if_neg hne]

/-- C6 witness: the invalid parse of `"unknown"` against an empty mapping. -/
theorem C6_invalid_input_branch_witness :
    ((parse "unknown" emptyConfig).isValid = false ∨ (parse "unknown" emptyConfig).tokens = []) ∧
    ((construct (parse "unknown" emptyConfig) emptyConfig).isValid = false ∧
     (construct (parse "unknown" emptyConfig) emptyConfig).url = "" ∧
     (construct (parse "unknown" emptyConfig) emptyConfig).content = (parse "unknown" emptyConfig).originalInput ∧
     (construct (parse "unknown" emptyConfig) emptyConfig).description =
       (if (parse "unknown" emptyConfig).errors = [] then "Invalid input"
        else joinWith "; " ((parse "unknown" emptyConfig).errors.map (fun e => e.message)))) :=
  ⟨Or.inl (by decide),
   C6_invalid_input_branch (parse "unknown" emptyConfig) emptyConfig (Or.inl (by decide)) (by decide)⟩

/-- C7: on the success path (valid parse, base token found, well-formed joined
URL), `construct` returns the final URL as both `url` and `content`, marks the
result valid, and describes it as the token keys joined by arrows. -/
theorem C7_success_shape (p : ParsedInput) (config : DevNavigatorConfig)
    (h1 : p.isValid = true) (h2 : p.tokens ≠ [])
    (b : ResolvedToken) (hb : p.tokens.find? constructBasePred = some b)
    (hu : isValidUrl (buildFinalUrl (b.value :: pathTokenValues p.tokens)) = true) :
    construct p config =
      { url := buildFinalUrl (b.value :: pathTokenValues p.tokens),
        description := "Navigate to: " ++ joinWith " → " (p.tokens.map (fun t => t.key)),
        isValid := true,
        content := buildFinalUrl (b.value :: pathTokenValues p.tokens) } := by
  have hcond : ¬((!p.isValid || p.tokens.isEmpty) = true) := by
    rw [h1]
    cases htok : p.tokens with
    | nil => exact absurd htok h2
    | cons a l => simp
  unfold construct
  rw [if_neg hcond, hb]
  dsimp only
  rw [hu]
  rfl

/-- C7 witness: `construct(parse("dev api", m), m)` with the demo mapping. -/
theorem C7_success_shape_witness :
    (parse "dev api" demoConfig).isValid = true ∧
    (parse "dev api" demoConfig).tokens ≠ [] ∧
    (parse "dev api" demoConfig).tokens.find? constructBasePred =
      some ⟨"dev", "https://app.dev.com", true⟩ ∧
    construct (parse "dev api" demoConfig) demoConfig =
      { url := buildFinalUrl ((⟨"dev", "https://app.dev.com", true⟩ : ResolvedToken).value ::
                 pathTokenValues (parse "dev api" demoConfig).tokens),
        description := "Navigate to: " ++
          joinWith " → " ((parse "dev api" demoConfig).tokens.map (fun t => t.key)),
        isValid := true,
        content := buildFinalUrl ((⟨"dev", "https://app.dev.com", true⟩ : ResolvedToken).value ::
                 pathTokenValues (parse "dev api" demoConfig).tokens) } :=
  ⟨by decide, by decide, by decide,
   C7_success_shape (parse "dev api" demoConfig) demoConfig (by decide) (by decide)
     ⟨"dev", "https://app.dev.com", true⟩ (by decide) (by decide)⟩

/-- C9: a single-segment input that itself carries an http(s) prefix but is
not a configured key is rejected at parse time with `MISSING_BASE` (the
parse-time check demands `isResolved`), even though its token passes the
constructor's identity-free base predicate; `construct` then takes the
invalid-input branch and never builds a URL from the literal. -/
theorem C9_literal_url_rejected (s : String) (config : DevNavigatorConfig)
    (h1 : segmentsOf s = [s]) (h2 : lookupToken config s = none)
    (h3 : isBaseValue s = true) :
    (parse s config).isValid = false ∧
    (parse s config).errors.map (fun e => e.code) = [VALIDATION_ERRORS.MISSING_BASE] ∧
    (parse s config).tokens = [{ key := s, value := s, isResolved := false }] ∧
    constructBasePred { key := s, value := s, isResolved := false } = true ∧
    (construct (parse s config) config).isValid = false ∧
    (construct (parse s config) config).url = "" := by
  have hp := parse_main s config (by rw [h1]; exact List.cons_ne_nil s [])
  rw [h1] at hp
  have htok : parseTokens config [s] = [{ key := s, value := s, isResolved := false }] := by
    unfold parseTokens resolveSegment
    simp [h2]
  rw [htok] at hp
  have herr : baseErrors [{ key := s, value := s, isResolved := false }] =
      [createValidationError "tokens" "No base URL found in tokens." VALIDATION_ERRORS.MISSING_BASE] := by
    unfold baseErrors
    rw [if_pos (by simp)]
    rw [if_neg (by simp [parseBaseCheck])]
  rw [herr] at hp
  rw [hp]
  refine ⟨rfl, rfl, rfl, ?_, rfl, rfl⟩
  show isBaseValue s = true
  exact h3

/-- C9 witness: the literal URL `"http://x"` against an empty mapping. -/
theorem C9_literal_url_rejected_witness :
    segmentsOf "http://x" = ["http://x"] ∧
    lookupToken emptyConfig "http://x" = none ∧
    isBaseValue "http://x" = true ∧
    ((parse "http://x" emptyConfig).isValid = false ∧
     (parse "http://x" emptyConfig).errors.map (fun e => e.code) = [VALIDATION_ERRORS.MISSING_BASE] ∧
     (parse "http://x" emptyConfig).tokens = [{ key := "http://x", value := "http://x", isResolved := false }] ∧
     constructBasePred { key := "http://x", value := "http://x", isResolved := false } = true ∧
     (construct (parse "http://x" emptyConfig) emptyConfig).isValid = false ∧
     (construct (parse "http://x" emptyConfig) emptyConfig).url = "") :=
  ⟨by decide, by decide, by decide,
   C9_literal_url_rejected "http://x" emptyConfig (by decide) (by decide) (by decide)⟩

/-- `find?` of the base predicate returns the token at the first satisfying
index, and the path-parts accumulation keeps every other token value in
order. -/
theorem find_path_at_first_base (l : List ResolvedToken) :
    ∀ (i : Nat) (hi : i < l.length),
      constructBasePred (l.get ⟨i, hi⟩) = true →
      (∀ j (hj : j < i), constructBasePred (l.get ⟨j, Nat.lt_trans hj hi⟩) = false) →
      l.find? constructBasePred = some (l.get ⟨i, hi⟩) ∧
      pathTokenValues l = (l.eraseIdx i).map (fun t => t.value) := by
  induction l with
  | nil =>
    intro i hi
    exact absurd hi (Nat.not_lt_zero i)
  | cons t rest ih =>
    intro i hi hbase hmin
    cases i with
    | zero =>
      have ht : constructBasePred t = true := hbase
      refine ⟨List.find?_cons_of_pos _ ht, ?_⟩
      show pathTokenValues (t :: rest) = ((t :: rest).eraseIdx 0).map (fun u => u.value)
      unfold pathTokenValues
      rw [if_pos ht]
      rfl
    | succ i' =>
      have hj0 : constructBasePred t = false := hmin 0 (Nat.succ_pos i')
      have hi' : i' < rest.length := Nat.lt_of_succ_lt_succ hi
      have hbase' : constructBasePred (rest.get ⟨i', hi'⟩) = true := hbase
      have hmin' : ∀ j (hj : j < i'), constructBasePred (rest.get ⟨j, Nat.lt_trans hj hi'⟩) = false := by
        intro j hj
        exact hmin (j + 1) (Nat.succ_lt_succ hj)
      obtain ⟨hfind, hpath⟩ := ih i' hi' hbase' hmin'
      refine ⟨?_, ?_⟩
      · rw [List.find?_cons_of_neg _ (by simp [hj0]), hfind]
        rfl
      · show pathTokenValues (t :: rest) = ((t :: rest).eraseIdx (i' + 1)).map (fun u => u.value)
        unfold pathTokenValues
        rw [if_neg (by simp [hj0]), hpath]
        rfl

/-- C10: on a valid parse result, `construct` excludes exactly the token at
the first index whose value carries an http(s) prefix; every other token
value, later duplicates included, stays in the path-parts list in original
order. -/
theorem C10_first_base_excluded (p : ParsedInput) (config : DevNavigatorConfig)
    (h1 : p.isValid = true) (h2 : p.tokens ≠ [])
    (i : Nat) (hi : i < p.tokens.length)
    (hbase : constructBasePred (p.tokens.get ⟨i, hi⟩) = true)
    (hmin : ∀ j (hj : j < i), constructBasePred (p.tokens.get ⟨j, Nat.lt_trans hj hi⟩) = false) :
    (construct p config).url =
      buildFinalUrl ((p.tokens.get ⟨i, hi⟩).value ::
        (p.tokens.eraseIdx i).map (fun t => t.value)) := by
  obtain ⟨hfind, hpath⟩ := find_path_at_first_base p.tokens i hi hbase hmin
  have hcond : ¬((!p.isValid || p.tokens.isEmpty) = true) := by
    rw [h1]
    cases htok : p.tokens with
    | nil => exact absurd htok h2
    | cons a l => simp
  unfold construct
  rw [if_neg hcond, hfind]
  dsimp only
  rw [hpath]
  rw [apply_ite ConstructedUrl.url]
  simp

/-- C10 witness: the same shortcut typed twice; the second copy of the base
token is kept as a path segment. -/
theorem C10_first_base_excluded_witness :
    (parse "dev dev" demoConfig).tokens =
      [⟨"dev", "https://app.dev.com", true⟩, ⟨"dev", "https://app.dev.com", true⟩] ∧
    (construct (parse "dev dev" demoConfig) demoConfig).url =
      buildFinalUrl ["https://app.dev.com", "https://app.dev.com"] :=
  ⟨by decide,
   (C10_first_base_excluded (parse "dev dev" demoConfig) demoConfig (by decide) (by decide)
      0 (by decide) (by decide) (fun j hj => absurd hj (Nat.not_lt_zero j))).trans (by decide)⟩

/-- Appending the empty string on the right is the identity. -/
theorem strAppend_empty (s : String) : s ++ "" = s := by
  apply String.ext
  rw [String.data_append]
  exact List.append_nil s.data

/-- String concatenation is associative. -/
theorem strAppend_assoc (a b c : String) : a ++ b ++ c = a ++ (b ++ c) := by
  apply String.ext
  simp [String.data_append, List.append_assoc]

/-- `joinWith` as a fold over the tail. -/
theorem joinWith_eq_fold (sep : String) (x : String) (xs : List String) :
    joinWith sep (x :: xs) = x ++ xs.foldr (fun a acc => sep ++ a ++ acc) "" := by
  induction xs generalizing x with
  | nil => exact (strAppend_empty x).symm
  | cons y r ih =>
    show x ++ sep ++ joinWith sep (y :: r) = _
    rw [ih y]
    apply String.ext
    simp [String.data_append, List.append_assoc]


/-- C2 counterexample: a mapped value ending in `'/'` keeps its trailing slash
(the code strips only leading slashes from subsequent parts), and a lone base
part keeps its trailing slash (the code returns it unchanged), contradicting
the claimed both-sides stripping. -/
theorem C2_counterexample :
    (construct (parse "dev api" slashConfig) slashConfig).url = "https://app.dev.com/api/v1/" ∧
    "https://app.dev.com/api/v1/" ≠ "https://app.dev.com/api/v1" ∧
    (construct (parse "dev" rootConfig) rootConfig).url = "https://x/" ∧
    "https://x/" ≠ "https://x" := by
  decide

/-- C2 amended: `buildFinalUrl` keeps a lone first part unchanged; otherwise
it strips trailing slashes from the first part only and leading slashes from
every subsequent part, joining with single `'/'` separators; the spec's
slash-free example still joins to `https://app.dev.com/api/v1`. -/
theorem C2_amended_join :
    (∀ parts, buildFinalUrl parts = specJoinLeadingOnly parts) ∧
    (construct (parse "dev api" demoConfig) demoConfig).url = "https://app.dev.com/api/v1" := by
  refine ⟨?_, by decide⟩
  intro parts
  cases parts with
  | nil => rfl
  | cons base rest =>
    cases rest with
    | nil => rfl
    | cons y r =>
      show (if (y :: r).isEmpty = true then base
            else
              if joinWith "/" (List.map stripLeadingSlashes (y :: r)) = "" then stripTrailingSlashes base
              else stripTrailingSlashes base ++ "/" ++ joinWith "/" (List.map stripLeadingSlashes (y :: r))) =
          (if joinSlashFold (List.map stripLeadingSlashes (y :: r)) = "" then stripTrailingSlashes base
           else stripTrailingSlashes base ++ "/" ++ joinSlashFold (List.map stripLeadingSlashes (y :: r)))
      rw [if_neg (by simp)]
      rw [List.map_cons, joinWith_eq_fold]
      rfl

/-- Splitting on spaces always yields at least one (possibly empty) piece. -/
theorem splitSpChars_ne_nil (l : List Char) : splitSpChars l ≠ [] := by
  cases l with
  | nil => simp [splitSpChars]
  | cons c r =>
    unfold splitSpChars
    split
    · simp
    · split <;> simp

/-- No non-empty piece survives filtering exactly when the character list is
all spaces. -/
theorem filter_splitSp_eq_nil_iff (l : List Char) :
    (splitSpChars l).filter (fun g => decide (g.length > 0)) = [] ↔ ∀ c ∈ l, c = ' ' := by
  induction l with
  | nil => simp [splitSpChars]
  | cons c r ih =>
    by_cases hc : c = ' '
    · subst hc
      have hsp : splitSpChars (' ' :: r) = [] :: splitSpChars r := by
        simp [splitSpChars]
      rw [hsp]
      simp only [List.filter_cons]
      rw [if_neg (by decide)]
      simp [ih]
    · have hsp : ∃ g gs, splitSpChars r = g :: gs := by
        rcases hx : splitSpChars r with _ | ⟨g, gs⟩
        · exact absurd hx (splitSpChars_ne_nil r)
        · exact ⟨g, gs, rfl⟩
      rcases hsp with ⟨g, gs, hgs⟩
      have hred : splitSpChars (c :: r) = (c :: g) :: gs := by
        unfold splitSpChars
        rw [if_neg (by simp [hc]), hgs]
      rw [hred]
      constructor
      · intro hfil
        rw [List.filter_cons, if_pos (by simp)] at hfil
        cases hfil
      · intro hall
        exact absurd (hall c (List.mem_cons_self c r)) hc

/-- The head of a `dropWhile` result does not satisfy the dropped predicate. -/
theorem head_dropWhile_false (p : Char → Bool) (l : List Char) :
    ∀ c cs, l.dropWhile p = c :: cs → p c = false := by
  induction l with
  | nil =>
    intro c cs h
    cases h
  | cons a r ih =>
    intro c cs h
    rw [List.dropWhile_cons] at h
    split at h
    · exact ih c cs h
    · cases h
      rename_i hcond
      exact Bool.not_eq_true _ ▸ hcond

/-- The last character of a trimmed list is never whitespace. -/
theorem trimChars_getLast_not_ws (l : List Char) (c : Char)
    (h : (trimChars l).getLast? = some c) : isJsWs c = false := by
  unfold trimChars at h
  rw [List.getLast?_reverse] at h
  rcases hx : List.dropWhile isJsWs (List.dropWhile isJsWs l).reverse with _ | ⟨a, as⟩
  · rw [hx] at h
    cases h
  · rw [hx] at h
    have ha : a = c := by
      injection h
    exact ha ▸ head_dropWhile_false isJsWs _ a as hx

/-- Collapsing whitespace preserves non-emptiness. -/
theorem collapseWs_ne_nil (l : List Char) (h : l ≠ []) : collapseWs l ≠ [] := by
  induction l with
  | nil => exact absurd rfl h
  | cons c r ih =>
    cases r with
    | nil =>
      show collapseWs [c] ≠ []
      unfold collapseWs
      split <;> simp
    | cons d r2 =>
      show collapseWs (c :: d :: r2) ≠ []
      unfold collapseWs
      split
      · split
        · exact ih (List.cons_ne_nil d r2)
        · simp
      · simp

/-- Collapsing whitespace preserves a non-whitespace last character. -/
theorem collapseWs_getLast (l : List Char) (c : Char) (hc : isJsWs c = false) :
    l.getLast? = some c → (collapseWs l).getLast? = some c := by
  induction l with
  | nil =>
    intro h
    cases h
  | cons a r ih =>
    intro h
    cases r with
    | nil =>
      have ha : a = c := by
        have : some a = some c := h
        injection this
      subst ha
      show (collapseWs [a]).getLast? = some a
      unfold collapseWs
      rw [if_neg (by simp [hc])]
      rfl
    | cons d r2 =>
      have h2 : (d :: r2).getLast? = some c := by
        rwa [List.getLast?_cons_cons] at h
      have hlast : (collapseWs (d :: r2)).getLast? = some c := ih h2
      have hne : collapseWs (d :: r2) ≠ [] := collapseWs_ne_nil _ (List.cons_ne_nil d r2)
      have key : ∀ x : Char, (x :: collapseWs (d :: r2)).getLast? = some c := by
        intro x
        rcases hX : collapseWs (d :: r2) with _ | ⟨b, bs⟩
        · exact absurd hX hne
        · rw [List.getLast?_cons_cons, ← hX]
          exact hlast
      show (if isJsWs a = true then
              if isJsWs d = true then collapseWs (d :: r2) else ' ' :: collapseWs (d :: r2)
            else a :: collapseWs (d :: r2)).getLast? = some c
      by_cases ha : isJsWs a = true
      · rw [if_pos ha]
        by_cases hd : isJsWs d = true
        · rw [if_pos hd]
          exact hlast
        · rw [if_neg hd]
          exact key ' '
      · rw [if_neg ha]
        exact key a

/-- A last-element witness is a member. -/
theorem mem_of_getLast_some (l : List Char) (c : Char) (h : l.getLast? = some c) :
    c ∈ l := by
  induction l with
  | nil => cases h
  | cons a r ih =>
    cases r with
    | nil =>
      have : a = c := by
        have h2 : some a = some c := h
        injection h2
      exact this ▸ List.mem_cons_self a []
    | cons d r2 =>
      rw [List.getLast?_cons_cons] at h
      exact List.mem_cons_of_mem a (ih h)

/-- Stripping the `'@'` marker from a list not headed by `'@'` is the
identity. -/
theorem stripAtSign_cons_ne (c : Char) (r : List Char) (h : c ≠ '@') :
    stripAtSign (c :: r) = c :: r := by
  unfold stripAtSign
  split
  · rename_i heq
    injection heq with h1 _
    exact absurd h1 h
  · rfl

/-- A nonempty normalized character list contains a non-space character: the
trimmed input ends in a non-whitespace character, collapsing preserves it,
and it survives the `'@'` stripping whenever anything survives at all. -/
theorem normData_has_nonspace (l : List Char)
    (h : stripAtSign (collapseWs (trimChars l)) ≠ []) :
    ∃ c ∈ stripAtSign (collapseWs (trimChars l)), c ≠ ' ' := by
  have htne : trimChars l ≠ [] := by
    intro h0
    apply h
    rw [h0]
    rfl
  have hlast : ∃ cl, (trimChars l).getLast? = some cl := by
    rcases hx : (trimChars l).getLast? with _ | cl
    · exact absurd (List.getLast?_eq_none_iff.mp hx) htne
    · exact ⟨cl, rfl⟩
  rcases hlast with ⟨cl, hcl⟩
  have hclws : isJsWs cl = false := trimChars_getLast_not_ws l cl hcl
  have hclsp : cl ≠ ' ' := by
    intro hsp
    rw [hsp] at hclws
    exact absurd hclws (by decide)
  rcases hM : collapseWs (trimChars l) with _ | ⟨c0, m2⟩
  · have hm : (collapseWs (trimChars l)).getLast? = some cl :=
      collapseWs_getLast (trimChars l) cl hclws hcl
    rw [hM] at hm
    cases hm
  · have hm : (collapseWs (trimChars l)).getLast? = some cl :=
      collapseWs_getLast (trimChars l) cl hclws hcl
    rw [hM] at hm
    by_cases hat : c0 = '@'
    · subst hat
      have hstrip : stripAtSign ('@' :: m2) = m2 := rfl
      rw [hM] at h
      rw [hstrip] at h ⊢
      rcases hm2 : m2 with _ | ⟨b, bs⟩
      · exact absurd hm2 h
      · rw [hm2, List.getLast?_cons_cons] at hm
        exact ⟨cl, mem_of_getLast_some (b :: bs) cl hm, hclsp⟩
    · rw [stripAtSign_cons_ne c0 m2 hat]
      exact ⟨cl, mem_of_getLast_some (c0 :: m2) cl hm, hclsp⟩

/-- A string made only of spaces splits into no surviving segments, and
conversely. -/
theorem segsOfString_eq_nil_iff (s : String) :
    segsOfString s = [] ↔ ∀ c ∈ s.data, c = ' ' := by
  unfold segsOfString jsSplitSpace
  rw [List.filter_map, List.map_eq_nil_iff]
  exact filter_splitSp_eq_nil_iff s.data

/-- C8: `isValidFormat` holds exactly when the normalized input is non-empty
and every surviving space-split segment matches `^[a-zA-Z0-9-]+$`; the
function reads no mapping (its signature takes none), so the result depends
on the input alone; the spec's two examples behave as claimed. -/
theorem C8_format_precheck :
    (∀ input : String,
      isValidFormat input = true ↔
        (normalizeInput input ≠ "" ∧
          ∀ seg ∈ segsOfString (normalizeInput input), tokenKeyTest seg = true)) ∧
    isValidFormat "dev api!" = false ∧ isValidFormat "dev api" = true := by
  refine ⟨?_, by decide, by decide⟩
  intro input
  by_cases hn : normalizeInput input = ""
  · have hLHS : isValidFormat input = false := by
      unfold isValidFormat
      rw [if_pos hn]
    rw [hLHS]
    simp [hn]
  · have hseg : ¬((jsSplitSpace (normalizeInput input)).filter (fun seg => seg.length > 0) = []) := by
      intro hnil
      have hall : ∀ c ∈ (normalizeInput input).data, c = ' ' :=
        (segsOfString_eq_nil_iff (normalizeInput input)).mp hnil
      have hne : stripAtSign (collapseWs (trimChars input.data)) ≠ [] := by
        intro h0
        exact hn (String.ext h0)
      obtain ⟨c, hc, hcs⟩ := normData_has_nonspace input.data hne
      exact hcs (hall c hc)
    have hLHS : isValidFormat input =
        ((jsSplitSpace (normalizeInput input)).filter (fun seg => seg.length > 0)).all
          (fun segment => segment.length > 0 && tokenKeyTest segment) := by
      unfold isValidFormat
      rw [if_neg hn, if_neg hseg]
    rw [hLHS]
    constructor
    · intro hall
      refine ⟨hn, ?_⟩
      intro seg hsm
      have hb := List.all_eq_true.mp hall seg hsm
      simp only [Bool.and_eq_true] at hb
      exact hb.2
    · rintro ⟨-, hall⟩
      apply List.all_eq_true.mpr
      intro seg hsm
      simp only [Bool.and_eq_true]
      exact ⟨(List.mem_filter.mp hsm).2, hall seg hsm⟩
